import Mathlib

/-!
# Verification of zerologr (a logr adapter over zerolog)

Shallow embedding of `zerologr.go` (package `zerologr`): a `logr.Logger`
implementation that translates leveled key-value logging calls into calls
on a zerolog sink.

Modelling decisions, all read directly off the source:

* Go `interface{}` values that flow through the key-value pair lists are
  modelled by the inductive type `GoValue` (strings, ints, slices, nil and
  an opaque constructor for every other dynamic type).  The only runtime
  type inspection the source performs is the `key.(string)` assertion.
* A zerolog event builder is a mutable list of attached fields plus the
  level it was opened at; `Msg` finalizes it into an emitted `Record`.
  The sink is external to the repository: per its interface it offers an
  event builder for each of INFO/DEBUG/TRACE and an always-on ERROR
  builder, and a readable process-wide global minimum level.  The global
  minimum (`zerolog.GlobalLevel()`) is passed to each operation as the
  explicit argument `glob`, read at call time.
* zerolog levels are the integers used by the zerolog package:
  Trace = -1, Debug = 0, Info = 1, Warn = 2, Error = 3.
* Go slice semantics (backing arrays, aliasing, `make`/`copy`/`append`)
  are modelled explicitly by `Heap`/`GoSlice` for the derivation
  operations `clone`, `WithValues`, `WithName`, `V`, because the deep-copy
  invariant is about aliasing.  The emission path (`add`, `Info`, `Error`)
  only reads the `values` slice, so it takes the read-out contents as a
  Lean list.
-/

set_option autoImplicit false

namespace Zerologr

/-- A dynamically typed Go value (`interface{}`) as it occurs in the
key-value pair lists of the logging interface. -/
inductive GoValue where
  /-- a `string` value -/
  | str (s : String)
  /-- an `int` value -/
  | int (n : Int)
  /-- a slice value, used when a whole pair list is attached as one field -/
  | arr (vs : List GoValue)
  /-- the zero value `nil` of `interface{}` -/
  | nil
  /-- any value of another dynamic type (the tag names that type) -/
  | other (tag : String)

/-- `v.(string)` succeeds, i.e. the dynamic type of `v` is `string`. -/
def GoValue.isString : GoValue → Bool
  | .str _ => true
  | _ => false

/-- A field attached to a zerolog event builder, one constructor per
builder method the source calls. -/
inductive Field where
  /-- `e.Interface(k, v)`: attach an arbitrary value under key `k` -/
  | interfaceF (k : String) (v : GoValue)
  /-- `e.Int(k, n)`: attach a numeric field -/
  | intF (k : String) (n : Int)
  /-- `e.Str(k, s)`: attach a text field -/
  | strF (k : String) (s : String)
  /-- `e.AnErr(k, err)` / `e.Err(err)` (key `"error"`): attach an error -/
  | errF (k : String) (msg : String)
  /-- `e.Stack()`: attach the captured call stack -/
  | stackF

/-- A finalized zerolog event: the level of the builder that produced it,
its attached fields in attachment order, and the message passed to `Msg`. -/
structure Record where
  level : Int
  fields : List Field
  msg : String

/-! ## zerolog levels and the verbosity thresholds -/

/-- `zerolog.TraceLevel` -/
def TraceLevel : Int := -1
/-- `zerolog.DebugLevel` -/
def DebugLevel : Int := 0
/-- `zerolog.InfoLevel` -/
def InfoLevel : Int := 1
/-- `zerolog.WarnLevel` -/
def WarnLevel : Int := 2
/-- `zerolog.ErrorLevel` -/
def ErrorLevel : Int := 3

/-- `const debugVerbosity = 2` -/
def debugVerbosity : Int := 2
/-- `const traceVerbosity = 8` -/
def traceVerbosity : Int := 8

/-! ## The field encoder `add` -/

/-- The error message attached on an odd-length pair list. -/
def oddArityMsg : String :=
  "odd number of arguments passed as key-value pairs for logging"

/-- The error message attached on a non-string key. -/
def nonStringKeyMsg : String :=
  "non-string key argument passed to logging, ignoring all later arguments"

/-- The loop of `add`: walk `keysAndVals` two at a time; a string key is
encoded as `e.Interface(keyStr, val)`, a non-string key aborts with the
diagnostic fields.  (Reached only with an even-length list, so the
single-element case is dead code, mirrored as producing nothing.) -/
def addLoop : List GoValue → List Field
  | [] => []
  | [_] => []
  | key :: val :: rest =>
    match key with
    | .str keyStr => .interfaceF keyStr val :: addLoop rest
    | _ =>
      [.interfaceF "invalid key" key, .errF "zerologr-err" nonStringKeyMsg, .stackF]

/-- `add(e, keysAndVals)`: the fields this call appends to the event `e`.
A mismatched (odd) argument count attaches the raw list under `"args"`
plus a synthetic error and a stack capture, and encodes no pair.  The
function is total: no path raises to the caller. -/
def addFields (keysAndVals : List GoValue) : List Field :=
  if keysAndVals.length % 2 ≠ 0 then
    [.interfaceF "args" (.arr keysAndVals),
     .errF "zerologr-err" oddArityMsg,
     .stackF]
  else
    addLoop keysAndVals

/-! ## The logger value and its emission operations -/

/-- The observable state of a `logger` value: `verbosity int`,
`prefix string` (here called `name`), and the contents read from the
`values []interface{}` slice.  The `l *zerolog.Logger` sink handle is
modelled externally (events are returned, the global minimum level is the
`glob` argument). -/
structure Logger where
  verbosity : Int
  name : String
  values : List GoValue

/-- `logger.Enabled()`: map the verbosity to a zerolog level by the two
fixed thresholds and compare against the global minimum level `glob`
(`zerolog.GlobalLevel()`, read at call time). -/
def Enabled (l : Logger) (glob : Int) : Bool :=
  let lvl : Int :=
    if l.verbosity < debugVerbosity then InfoLevel
    else if l.verbosity < traceVerbosity then DebugLevel
    else TraceLevel
  if lvl < glob then false else true

/-- `logger.Info(msg, keysAndVals...)`: gated on `Enabled`; when enabled,
opens the builder for the tier of the verbosity, attaches
`Int("verbosity", ...)`, `Str("name", ...)` when the name is non-empty,
then `add`s the accumulated values and the call-site pairs, and finalizes
with `msg`.  Returns the emitted record, or `none` when disabled. -/
def Info (l : Logger) (glob : Int) (msg : String) (keysAndVals : List GoValue) :
    Option Record :=
  if Enabled l glob then
    let lvl : Int :=
      if l.verbosity < debugVerbosity then InfoLevel
      else if l.verbosity < traceVerbosity then DebugLevel
      else TraceLevel
    let e : List Field := [.intF "verbosity" l.verbosity]
    let e := if l.name ≠ "" then e ++ [.strF "name" l.name] else e
    let e := e ++ addFields l.values
    let e := e ++ addFields keysAndVals
    some ⟨lvl, e, msg⟩
  else
    none

/-- `logger.Error(err, msg, keysAndVals...)`: opens the ERROR builder and
attaches `Err(err)` (zerolog's dedicated `"error"` field), then proceeds
as `Info` does, with no `Enabled` gate.  `glob` is the sink's global
minimum level at call time; `Error` never consults it. -/
def Error (l : Logger) (glob : Int) (err : String) (msg : String)
    (keysAndVals : List GoValue) : Record :=
  let e : List Field := [.errF "error" err]
  let e := if l.name ≠ "" then e ++ [.strF "name" l.name] else e
  let e := e ++ addFields l.values
  let e := e ++ addFields keysAndVals
  ⟨ErrorLevel, e, msg⟩

/-! ## Go slices, for the derivation operations

`clone` exists to deep-copy the `values []interface{}` slice, so the
derivation operations are modelled over explicit backing arrays: a `Heap`
holds the arrays, a `GoSlice` is a view `(array id, offset, length)` into
one, with capacity running to the end of its array, exactly Go's
`(ptr, len, cap)` triple for arrays that are never moved. -/

/-- A Go slice header: which backing array, the offset of element 0, and
the slice's length.  Its capacity is the array's length minus `off`. -/
structure GoSlice where
  arr : Nat
  off : Nat
  len : Nat
deriving DecidableEq, Repr

/-- The store of backing arrays, indexed by `GoSlice.arr`. -/
structure Heap where
  arrays : List (List GoValue)

/-- The elements a slice denotes. -/
def readS (h : Heap) (s : GoSlice) : List GoValue :=
  ((h.arrays.getD s.arr []).drop s.off).take s.len

/-- `cap(s)`: from the slice's start to the end of its backing array. -/
def capS (h : Heap) (s : GoSlice) : Nat :=
  (h.arrays.getD s.arr []).length - s.off

/-- `s` is a live view into `h` (what Go's type safety guarantees). -/
def ValidS (h : Heap) (s : GoSlice) : Prop :=
  s.arr < h.arrays.length ∧ s.off + s.len ≤ (h.arrays.getD s.arr []).length

instance (h : Heap) (s : GoSlice) : Decidable (ValidS h s) := by
  unfold ValidS; infer_instance

/-- Allocate a fresh backing array; returns the new heap and the array id. -/
def alloc (h : Heap) (a : List GoValue) : Heap × Nat :=
  (⟨h.arrays ++ [a]⟩, h.arrays.length)

/-- `copySlice(in)`: `out := make([]interface{}, len(in)); copy(out, in)`.
The fresh array has length (and capacity) `s.len`: the copied elements,
padded with `nil` where the source view runs past its array (never the
case for a valid slice). -/
def copySlice (h : Heap) (s : GoSlice) : Heap × GoSlice :=
  let contents := readS h s ++ List.replicate (s.len - (readS h s).length) GoValue.nil
  let (h1, id) := alloc h contents
  (h1, ⟨id, 0, s.len⟩)

/-- Go's `append(s, xs...)`: reuse the backing array in place when the
spare capacity suffices, otherwise move to a freshly allocated array
holding the old elements followed by `xs`. -/
def appendS (h : Heap) (s : GoSlice) (xs : List GoValue) : Heap × GoSlice :=
  if s.len + xs.length ≤ capS h s then
    let a := h.arrays.getD s.arr []
    let a1 := a.take (s.off + s.len) ++ xs ++ a.drop (s.off + s.len + xs.length)
    (⟨h.arrays.set s.arr a1⟩, ⟨s.arr, s.off, s.len + xs.length⟩)
  else
    let (h1, id) := alloc h (readS h s ++ xs)
    (h1, ⟨id, 0, s.len + xs.length⟩)

/-- A `logger` value at the slice level of detail: `values` is the slice
header, its contents live in the heap. -/
structure HLogger where
  verbosity : Int
  name : String
  values : GoSlice
deriving DecidableEq, Repr

/-- Read an `HLogger` down to the observable `Logger` the emission
operations consume. -/
def readLogger (h : Heap) (l : HLogger) : Logger :=
  ⟨l.verbosity, l.name, readS h l.values⟩

/-- `logger.clone()`: a struct copy whose `values` slice is deep-copied by
`copySlice`. -/
def clone (h : Heap) (l : HLogger) : Heap × HLogger :=
  let (h1, s1) := copySlice h l.values
  (h1, { l with values := s1 })

/-- `logger.V(verbosity)`: clone, then overwrite the verbosity — no
validation of the argument whatsoever. -/
def V (h : Heap) (l : HLogger) (verbosity : Int) : Heap × HLogger :=
  let (h1, n) := clone h l
  (h1, { n with verbosity := verbosity })

/-- `logger.WithName(name)`: clone; if the current name is non-empty set
it to `name + "/"`, then append the segment. -/
def WithName (h : Heap) (l : HLogger) (name : String) : Heap × HLogger :=
  let (h1, n) := clone h l
  let p := if l.name.length > 0 then l.name ++ "/" else n.name
  (h1, { n with name := p ++ name })

/-- `logger.WithValues(kvList...)`: clone, then
`new.values = append(new.values, kvList...)`. -/
def WithValues (h : Heap) (l : HLogger) (kvList : List GoValue) :
    Heap × HLogger :=
  let (h1, n) := clone h l
  let (h2, s2) := appendS h1 n.values kvList
  (h2, { n with values := s2 })

/-! ## Pair-list helpers, for stating properties of `add` -/

/-- Flatten a list of (key, value) pairs into the alternating variadic
list `[k1, v1, k2, v2, ...]` the logging interface passes. -/
def flattenPairs : List (GoValue × GoValue) → List GoValue
  | [] => []
  | p :: rest => p.1 :: p.2 :: flattenPairs rest

/-- Embed string-keyed pairs as Go-value pairs. -/
def strPairs (ps : List (String × GoValue)) : List (GoValue × GoValue) :=
  ps.map (fun p => (GoValue.str p.1, p.2))

/-- The fields a well-formed (all keys strings) pair list encodes to: one
`Interface` field per pair, in order. -/
def encodedOf (ps : List (String × GoValue)) : List Field :=
  ps.map (fun p => Field.interfaceF p.1 p.2)

/-! ## Slice lemmas -/

theorem getD_append_of_lt {α : Type} (l m : List α) (i : Nat) (d : α)
    (h : i < l.length) : (l ++ m).getD i d = l.getD i d := by
  simp [List.getD_eq_getElem?_getD, List.getElem?_append, h]

theorem getD_concat_self {α : Type} (l : List α) (a : α) (d : α) :
    (l ++ [a]).getD l.length d = a := by
  simp [List.getD_eq_getElem?_getD, List.getElem?_append]

theorem getD_set_of_ne {α : Type} (l : List α) (i j : Nat) (a : α) (d : α)
    (h : i ≠ j) : (l.set i a).getD j d = l.getD j d := by
  simp [List.getD_eq_getElem?_getD, List.getElem?_set_ne h]

theorem getD_set_self {α : Type} (l : List α) (i : Nat) (a : α) (d : α)
    (h : i < l.length) : (l.set i a).getD i d = a := by
  simp [List.getD_eq_getElem?_getD, List.getElem?_set_self h]

theorem readS_length_le (h : Heap) (s : GoSlice) : (readS h s).length ≤ s.len := by
  simp [readS, List.length_take]

theorem readS_length_of_valid (h : Heap) (s : GoSlice) (hv : ValidS h s) :
    (readS h s).length = s.len := by
  obtain ⟨h1, h2⟩ := hv
  simp only [readS, List.length_take, List.length_drop]
  omega

theorem readS_alloc_frame (h : Heap) (a : List GoValue) (t : GoSlice)
    (ht : t.arr < h.arrays.length) :
    readS ⟨h.arrays ++ [a]⟩ t = readS h t := by
  simp only [readS]
  rw [getD_append_of_lt _ _ _ _ ht]

theorem readS_concat_self (h : Heap) (a : List GoValue) (n : Nat) :
    readS ⟨h.arrays ++ [a]⟩ ⟨h.arrays.length, 0, n⟩ = a.take n := by
  simp [readS, getD_concat_self]

theorem valid_alloc_frame (h : Heap) (a : List GoValue) (t : GoSlice)
    (ht : ValidS h t) : ValidS ⟨h.arrays ++ [a]⟩ t := by
  obtain ⟨h1, h2⟩ := ht
  refine ⟨by simpa using Nat.lt_succ_of_lt h1, ?_⟩
  simpa [List.getD_eq_getElem?_getD, List.getElem?_append, h1] using h2

theorem copySlice_read (h : Heap) (s : GoSlice) (hv : ValidS h s) :
    readS (copySlice h s).1 (copySlice h s).2 = readS h s := by
  have hl := readS_length_of_valid h s hv
  simp only [copySlice, alloc, readS_concat_self, hl, Nat.sub_self,
    List.replicate_zero, List.append_nil]
  rw [← hl, List.take_length]

theorem copySlice_frame (h : Heap) (s : GoSlice) (t : GoSlice)
    (ht : t.arr < h.arrays.length) :
    readS (copySlice h s).1 t = readS h t := by
  simpa [copySlice, alloc] using readS_alloc_frame h _ t ht

theorem copySlice_valid (h : Heap) (s : GoSlice) :
    ValidS (copySlice h s).1 (copySlice h s).2 := by
  have hle := readS_length_le h s
  refine ⟨by simp [copySlice, alloc], ?_⟩
  simp only [copySlice, alloc, getD_concat_self, List.length_append,
    List.length_replicate, Nat.zero_add]
  omega

theorem copySlice_arr (h : Heap) (s : GoSlice) :
    (copySlice h s).2.arr = h.arrays.length := rfl

theorem copySlice_heap_length (h : Heap) (s : GoSlice) :
    (copySlice h s).1.arrays.length = h.arrays.length + 1 := by
  simp [copySlice, alloc]

theorem appendS_read (h : Heap) (s : GoSlice) (xs : List GoValue)
    (hv : ValidS h s) :
    readS (appendS h s xs).1 (appendS h s xs).2 = readS h s ++ xs := by
  obtain ⟨ha, hb⟩ := hv
  by_cases hc : s.len + xs.length ≤ capS h s
  · have hcap : s.off + s.len + xs.length ≤ (h.arrays.getD s.arr []).length := by
      have := hc; simp only [capS] at this; omega
    simp only [appendS, if_pos hc, readS,
      getD_set_self _ _ _ _ ha]
    rw [List.append_assoc,
      List.drop_append_of_le_length (by rw [List.length_take]; omega),
      List.drop_take]
    have h2 : ((h.arrays.getD s.arr []).drop s.off).take (s.off + s.len - s.off)
        = ((h.arrays.getD s.arr []).drop s.off).take s.len := by
      congr 1; omega
    rw [h2]
    have h3 : (((h.arrays.getD s.arr []).drop s.off).take s.len).length
        = s.len := by
      rw [List.length_take, List.length_drop]; omega
    rw [← List.append_assoc,
      List.take_append_of_le_length (by rw [List.length_append, h3])]
    have h4 : s.len + xs.length
        = (((h.arrays.getD s.arr []).drop s.off).take s.len ++ xs).length := by
      rw [List.length_append, h3]
    rw [h4, List.take_length]
  · simp only [appendS, if_neg hc, alloc]
    rw [readS_concat_self]
    have hlen : (readS h s ++ xs).length = s.len + xs.length := by
      simp [readS_length_of_valid h s ⟨ha, hb⟩]
    rw [← hlen, List.take_length]

theorem appendS_frame (h : Heap) (s : GoSlice) (xs : List GoValue)
    (t : GoSlice) (ht : t.arr < h.arrays.length) (hne : t.arr ≠ s.arr) :
    readS (appendS h s xs).1 t = readS h t := by
  by_cases hc : s.len + xs.length ≤ capS h s
  · simp only [appendS, if_pos hc, readS]
    rw [getD_set_of_ne _ _ _ _ _ (Ne.symm hne)]
  · simp only [appendS, if_neg hc, alloc]
    exact readS_alloc_frame h _ t ht

theorem appendS_valid (h : Heap) (s : GoSlice) (xs : List GoValue)
    (hv : ValidS h s) :
    ValidS (appendS h s xs).1 (appendS h s xs).2 := by
  obtain ⟨ha, hb⟩ := hv
  by_cases hc : s.len + xs.length ≤ capS h s
  · have hcap : s.off + s.len + xs.length ≤ (h.arrays.getD s.arr []).length := by
      have := hc; simp only [capS] at this; omega
    refine ⟨by simpa [appendS, if_pos hc] using ha, ?_⟩
    simp only [appendS, if_pos hc, getD_set_self _ _ _ _ ha,
      List.length_append, List.length_take, List.length_drop]
    omega
  · refine ⟨by simp [appendS, if_neg hc, alloc], ?_⟩
    have hlen : (readS h s ++ xs).length = s.len + xs.length := by
      simp [readS_length_of_valid h s ⟨ha, hb⟩]
    simp [appendS, if_neg hc, alloc, getD_concat_self, hlen]

theorem appendS_valid_frame (h : Heap) (s : GoSlice) (xs : List GoValue)
    (t : GoSlice) (ht : ValidS h t) (hne : t.arr ≠ s.arr) :
    ValidS (appendS h s xs).1 t := by
  obtain ⟨h1, h2⟩ := ht
  by_cases hc : s.len + xs.length ≤ capS h s
  · refine ⟨by simpa [appendS, if_pos hc] using h1, ?_⟩
    simp only [appendS, if_pos hc]
    rw [getD_set_of_ne _ _ _ _ _ (Ne.symm hne)]
    exact h2
  · simp only [appendS, if_neg hc, alloc]
    exact valid_alloc_frame h _ t ⟨h1, h2⟩

/-! ## Derivation-level lemmas -/

theorem withValues_read (h : Heap) (l : HLogger) (xs : List GoValue)
    (hv : ValidS h l.values) :
    readS (WithValues h l xs).1 (WithValues h l xs).2.values
      = readS h l.values ++ xs := by
  simp only [WithValues, clone]
  rw [appendS_read _ _ _ (copySlice_valid h l.values),
    copySlice_read h l.values hv]

theorem withValues_frame (h : Heap) (l : HLogger) (xs : List GoValue)
    (t : GoSlice) (ht : ValidS h t) :
    readS (WithValues h l xs).1 t = readS h t := by
  simp only [WithValues, clone]
  rw [appendS_frame _ _ _ t
      (by rw [copySlice_heap_length]; exact Nat.lt_succ_of_lt ht.1)
      (by rw [copySlice_arr]; exact Nat.ne_of_lt ht.1),
    copySlice_frame h l.values t ht.1]

theorem withValues_valid (h : Heap) (l : HLogger) (xs : List GoValue) :
    ValidS (WithValues h l xs).1 (WithValues h l xs).2.values := by
  simp only [WithValues, clone]
  exact appendS_valid _ _ _ (copySlice_valid h l.values)

theorem withValues_valid_frame (h : Heap) (l : HLogger) (xs : List GoValue)
    (t : GoSlice) (ht : ValidS h t) :
    ValidS (WithValues h l xs).1 t := by
  simp only [WithValues, clone]
  exact appendS_valid_frame _ _ _ t
    (valid_alloc_frame h _ t ht)
    (by rw [copySlice_arr]; exact Nat.ne_of_lt ht.1)

theorem withName_frame (h : Heap) (l : HLogger) (seg : String)
    (t : GoSlice) (ht : t.arr < h.arrays.length) :
    readS (WithName h l seg).1 t = readS h t := by
  simp only [WithName, clone]
  exact copySlice_frame h l.values t ht

theorem v_frame (h : Heap) (l : HLogger) (v : Int)
    (t : GoSlice) (ht : t.arr < h.arrays.length) :
    readS (V h l v).1 t = readS h t := by
  simp only [V, clone]
  exact copySlice_frame h l.values t ht

/-! ## Lemmas about the field encoder `add` -/

theorem flattenPairs_length (ps : List (GoValue × GoValue)) :
    (flattenPairs ps).length = 2 * ps.length := by
  induction ps with
  | nil => rfl
  | cons p rest ih => simp [flattenPairs, ih]; omega

theorem flattenPairs_append (ps qs : List (GoValue × GoValue)) :
    flattenPairs (ps ++ qs) = flattenPairs ps ++ flattenPairs qs := by
  induction ps with
  | nil => rfl
  | cons p rest ih => simp [flattenPairs, ih]

theorem addFields_flattenPairs (ps : List (GoValue × GoValue)) :
    addFields (flattenPairs ps) = addLoop (flattenPairs ps) := by
  simp [addFields, flattenPairs_length, Nat.mul_mod_right]

theorem addLoop_strPairs_append (good : List (String × GoValue))
    (tail : List GoValue) :
    addLoop (flattenPairs (strPairs good) ++ tail)
      = encodedOf good ++ addLoop tail := by
  induction good with
  | nil => rfl
  | cons p rest ih => simpa [strPairs, flattenPairs, encodedOf, addLoop] using ih

theorem addLoop_nonstring (k v : GoValue) (tail : List GoValue)
    (hk : k.isString = false) :
    addLoop (k :: v :: tail)
      = [Field.interfaceF "invalid key" k,
         Field.errF "zerologr-err" nonStringKeyMsg, Field.stackF] := by
  cases k with
  | str s => simp [GoValue.isString] at hk
  | int n => rfl
  | arr vs => rfl
  | nil => rfl
  | other t => rfl

theorem strF_not_mem_addLoop (a b : String) :
    ∀ ps : List GoValue, Field.strF a b ∉ addLoop ps
  | [] => by simp [addLoop]
  | [x] => by simp [addLoop]
  | k :: v :: rest => by
    cases k <;> simp [addLoop] <;> exact strF_not_mem_addLoop a b rest

theorem strF_not_mem_addFields (a b : String) (ps : List GoValue) :
    Field.strF a b ∉ addFields ps := by
  unfold addFields
  split
  · simp
  · exact strF_not_mem_addLoop a b ps

/-! ## The shape of an emitted event -/

theorem Info_eq_some_shape (l : Logger) (glob : Int) (msg : String)
    (keysAndVals : List GoValue) (hen : Enabled l glob = true) :
    Info l glob msg keysAndVals
      = some ⟨(if l.verbosity < debugVerbosity then InfoLevel
               else if l.verbosity < traceVerbosity then DebugLevel
               else TraceLevel),
              [Field.intF "verbosity" l.verbosity]
                ++ (if l.name ≠ "" then [Field.strF "name" l.name] else [])
                ++ addFields l.values ++ addFields keysAndVals,
              msg⟩ := by
  by_cases hn : l.name = "" <;> simp [Info, hen, hn]

theorem Error_fields_shape (l : Logger) (glob : Int) (err msg : String)
    (keysAndVals : List GoValue) :
    (Error l glob err msg keysAndVals).fields
      = [Field.errF "error" err]
        ++ (if l.name ≠ "" then [Field.strF "name" l.name] else [])
        ++ addFields l.values ++ addFields keysAndVals := by
  by_cases hn : l.name = "" <;> simp [Error, hn]

/-! ## Claim theorems -/

/-- **C1**: `Enabled` maps the verbosity to a severity tier by the fixed
thresholds `debugVerbosity = 2` and `traceVerbosity = 8` — INFO for
`v < 2`, DEBUG for `2 ≤ v < 8` (so in particular for `v = 7`), TRACE for
`v ≥ 8` — and returns `true` iff that tier is at or above the sink's
global minimum level `glob` read at call time. -/
theorem enabled_tier_thresholds (l : Logger) (glob : Int) :
    (Enabled l glob = true ↔
      glob ≤ (if l.verbosity < 2 then InfoLevel
              else if l.verbosity < 8 then DebugLevel else TraceLevel))
    ∧ (l.verbosity = 7 → (Enabled l glob = true ↔ glob ≤ DebugLevel)) := by
  have key : ∀ lv : Int, ((if lv < glob then false else true) = true) ↔ glob ≤ lv := by
    intro lv
    split
    · simp; omega
    · simp; omega
  have main : Enabled l glob = true ↔
      glob ≤ (if l.verbosity < 2 then InfoLevel
              else if l.verbosity < 8 then DebugLevel else TraceLevel) := by
    simpa only [Enabled, debugVerbosity, traceVerbosity] using
      key (if l.verbosity < 2 then InfoLevel
           else if l.verbosity < 8 then DebugLevel else TraceLevel)
  refine ⟨main, fun h7 => ?_⟩
  rw [main, h7]
  norm_num

/-- Witness for C1: a logger at verbosity 7 sits on the DEBUG tier. -/
theorem enabled_tier_thresholds_witness :
    Enabled ⟨7, "", []⟩ 0 = true ↔ (0 : Int) ≤ DebugLevel :=
  (enabled_tier_thresholds ⟨7, "", []⟩ 0).2 rfl

/-- **C2**: every enabled `Info` call emits one event built at the tier of
the verbosity, carrying `Int("verbosity", ...)`, carrying
`Str("name", ...)` iff the name is non-empty, then the accumulated fields
followed by the call-site pairs (each encoded by `add`, duplicates kept),
finalized with the message. -/
theorem info_event_shape (l : Logger) (glob : Int) (msg : String)
    (keysAndVals : List GoValue) (hen : Enabled l glob = true) :
    (Info l glob msg keysAndVals
      = some ⟨(if l.verbosity < debugVerbosity then InfoLevel
               else if l.verbosity < traceVerbosity then DebugLevel
               else TraceLevel),
              [Field.intF "verbosity" l.verbosity]
                ++ (if l.name ≠ "" then [Field.strF "name" l.name] else [])
                ++ addFields l.values ++ addFields keysAndVals,
              msg⟩)
    ∧ (∀ r, Info l glob msg keysAndVals = some r →
        (Field.strF "name" l.name ∈ r.fields ↔ l.name ≠ "")) := by
  have hshape := Info_eq_some_shape l glob msg keysAndVals hen
  refine ⟨hshape, ?_⟩
  intro r hr
  rw [hshape] at hr
  injection hr with hr
  subst hr
  by_cases hn : l.name = "" <;>
    simp [hn, strF_not_mem_addFields]

/-- Witness for C2, the spec's end-to-end example: root with empty name,
verbosity 0, global minimum INFO, `info("hello", "a", 1)` emits one INFO
event with fields verbosity=0 and a=1, no name field, message "hello". -/
theorem info_event_shape_witness :
    Info ⟨0, "", []⟩ InfoLevel "hello" [GoValue.str "a", GoValue.int 1]
      = some ⟨InfoLevel,
              [Field.intF "verbosity" 0, Field.interfaceF "a" (GoValue.int 1)],
              "hello"⟩ := by
  have h := (info_event_shape ⟨0, "", []⟩ InfoLevel "hello"
    [GoValue.str "a", GoValue.int 1] (by decide)).1
  simpa [addFields, addLoop, debugVerbosity, traceVerbosity, InfoLevel] using h

/-- **C3**: on an odd-length pair list, `add` attaches the raw list under
`"args"`, the synthetic `"zerologr-err"` error with the odd-arity message,
and a stack capture, and encodes no individual pair; being a total
function, it raises nothing to the caller. -/
theorem add_odd_arity (pairs : List GoValue) (hodd : pairs.length % 2 ≠ 0) :
    addFields pairs
      = [Field.interfaceF "args" (GoValue.arr pairs),
         Field.errF "zerologr-err" oddArityMsg, Field.stackF] := by
  simp [addFields, hodd]

/-- Witness for C3: `["k1", 1, "k2"]` yields only the three diagnostic
fields. -/
theorem add_odd_arity_witness :
    addFields [GoValue.str "k1", GoValue.int 1, GoValue.str "k2"]
      = [Field.interfaceF "args"
           (GoValue.arr [GoValue.str "k1", GoValue.int 1, GoValue.str "k2"]),
         Field.errF "zerologr-err" oddArityMsg, Field.stackF] :=
  add_odd_arity [GoValue.str "k1", GoValue.int 1, GoValue.str "k2"] (by decide)

/-- **C4**: on an even-length pair list whose first non-string key sits at
some position, `add` encodes every earlier pair as its own field, attaches
the offending key under `"invalid key"` plus the synthetic
`"zerologr-err"` error and a stack capture, and drops everything from that
position on; with all keys strings, every pair is encoded. -/
theorem add_nonstring_key_policy (good all : List (String × GoValue))
    (k v : GoValue) (rest : List (GoValue × GoValue)) :
    (k.isString = false →
      addFields (flattenPairs (strPairs good ++ (k, v) :: rest))
        = encodedOf good
          ++ [Field.interfaceF "invalid key" k,
              Field.errF "zerologr-err" nonStringKeyMsg, Field.stackF])
    ∧ addFields (flattenPairs (strPairs all)) = encodedOf all := by
  constructor
  · intro hk
    rw [addFields_flattenPairs, flattenPairs_append, addLoop_strPairs_append,
      show flattenPairs ((k, v) :: rest) = k :: v :: flattenPairs rest from rfl,
      addLoop_nonstring k v _ hk]
  · have h := addLoop_strPairs_append all []
    rw [List.append_nil] at h
    rw [addFields_flattenPairs, h]
    simp [addLoop]

/-- Witness for C4, the spec's example: `[42, "v", "k2", "v2"]` yields the
`"invalid key"` diagnostic and drops `"k2"`; and `[("k", 1)]` encodes
normally. -/
theorem add_nonstring_key_policy_witness :
    (addFields (flattenPairs (strPairs []
        ++ (GoValue.int 42, GoValue.str "v")
          :: [(GoValue.str "k2", GoValue.str "v2")]))
      = encodedOf []
        ++ [Field.interfaceF "invalid key" (GoValue.int 42),
            Field.errF "zerologr-err" nonStringKeyMsg, Field.stackF])
    ∧ addFields (flattenPairs (strPairs [("k", GoValue.int 1)]))
        = encodedOf [("k", GoValue.int 1)] :=
  ⟨(add_nonstring_key_policy [] [("k", GoValue.int 1)] (GoValue.int 42)
      (GoValue.str "v") [(GoValue.str "k2", GoValue.str "v2")]).1 rfl,
   (add_nonstring_key_policy [] [("k", GoValue.int 1)] (GoValue.int 42)
      (GoValue.str "v") [(GoValue.str "k2", GoValue.str "v2")]).2⟩

/-- **C5**: `Error` always emits exactly one event on the ERROR channel,
with the supplied error attached as the dedicated `"error"` field,
independent of the sink's global minimum level and of the instance's
verbosity — it is never gated by `Enabled`. -/
theorem error_always_emits (l : Logger) (glob glob2 v : Int)
    (err msg : String) (keysAndVals : List GoValue) :
    (Error l glob err msg keysAndVals).level = ErrorLevel
    ∧ Field.errF "error" err ∈ (Error l glob err msg keysAndVals).fields
    ∧ Error l glob err msg keysAndVals = Error l glob2 err msg keysAndVals
    ∧ Error { l with verbosity := v } glob err msg keysAndVals
        = Error l glob err msg keysAndVals := by
  refine ⟨rfl, ?_, rfl, rfl⟩
  by_cases hn : l.name = "" <;> simp [Error, hn]

/-- **C6**: when `Enabled` is false an `Info` call emits nothing at all,
for every message and every (even malformed, unvalidated) pair list. -/
theorem info_disabled_noop (l : Logger) (glob : Int) (msg : String)
    (keysAndVals : List GoValue) (hdis : Enabled l glob = false) :
    Info l glob msg keysAndVals = none := by
  simp [Info, hdis]

/-- Witness for C6: verbosity 0 against a global minimum of ERROR, with a
malformed odd pair list, emits nothing. -/
theorem info_disabled_noop_witness :
    Info ⟨0, "", []⟩ ErrorLevel "m" [GoValue.str "k"] = none :=
  info_disabled_noop ⟨0, "", []⟩ ErrorLevel "m" [GoValue.str "k"] (by decide)

/-- **C7**: `WithName` yields `name + "/" + segment` on a non-empty name
and just `segment` on an empty one; composing from an empty root gives
`"a/b"`. -/
theorem withName_appends_segment (h : Heap) (l r : HLogger) (seg : String)
    (hroot : r.name = "") :
    ((WithName h l seg).2.name
        = if l.name = "" then seg else l.name ++ "/" ++ seg)
    ∧ (WithName (WithName h r "a").1 (WithName h r "a").2 "b").2.name
        = "a/b" := by
  have hpos : ∀ s : String, s ≠ "" → 0 < s.length := by
    intro s hs
    cases s with
    | mk cs =>
      cases cs with
      | nil => exact absurd rfl hs
      | cons c cs => simp [String.length]
  have gen : ∀ (h2 : Heap) (l2 : HLogger) (s2 : String),
      (WithName h2 l2 s2).2.name
        = if l2.name = "" then s2 else l2.name ++ "/" ++ s2 := by
    intro h2 l2 s2
    by_cases hn : l2.name = ""
    · simp [WithName, clone, hn]
    · simp [WithName, clone, hn, hpos l2.name hn]
  have h1 : (WithName h r "a").2.name = "a" := by
    rw [gen, if_pos hroot]
  refine ⟨gen h l seg, ?_⟩
  rw [gen, h1, if_neg (by decide)]
  decide

/-- Witness for C7: the `"a"`-then-`"b"` composition from an empty-named
root renders `"a/b"`. -/
theorem withName_appends_segment_witness :
    (WithName (WithName ⟨[]⟩ ⟨0, "", ⟨0, 0, 0⟩⟩ "a").1
        (WithName ⟨[]⟩ ⟨0, "", ⟨0, 0, 0⟩⟩ "a").2 "b").2.name = "a/b" :=
  (withName_appends_segment ⟨[]⟩ ⟨0, "", ⟨0, 0, 0⟩⟩ ⟨0, "", ⟨0, 0, 0⟩⟩ "b"
    rfl).2

/-- **C8**: the derivation operations never mutate the source logger's
accumulated values: after deriving `WithValues R xs` and then, from the
same `R`, `WithValues R ys`, the source still reads its original
sequence, the first derived instance reads exactly `base ++ xs` (no trace
of `ys`), the second exactly `base ++ ys` (no trace of `xs`); `WithName`
and `V` likewise leave the source's sequence untouched. -/
theorem derivations_nonmutating (h : Heap) (R : HLogger)
    (xs ys : List GoValue) (seg : String) (v : Int)
    (hval : ValidS h R.values) :
    readS (WithValues (WithValues h R xs).1 R ys).1 R.values
        = readS h R.values
    ∧ readS (WithValues (WithValues h R xs).1 R ys).1
        (WithValues h R xs).2.values = readS h R.values ++ xs
    ∧ readS (WithValues (WithValues h R xs).1 R ys).1
        (WithValues (WithValues h R xs).1 R ys).2.values
        = readS h R.values ++ ys
    ∧ readS (WithName h R seg).1 R.values = readS h R.values
    ∧ readS (V h R v).1 R.values = readS h R.values := by
  have hv1 : ValidS (WithValues h R xs).1 R.values :=
    withValues_valid_frame h R xs R.values hval
  have hA : ValidS (WithValues h R xs).1 (WithValues h R xs).2.values :=
    withValues_valid h R xs
  refine ⟨?_, ?_, ?_, ?_, ?_⟩
  · rw [withValues_frame _ _ _ _ hv1, withValues_frame _ _ _ _ hval]
  · rw [withValues_frame _ _ _ _ hA, withValues_read _ _ _ hval]
  · rw [withValues_read _ _ _ hv1, withValues_frame _ _ _ _ hval]
  · exact withName_frame h R seg R.values hval.1
  · exact v_frame h R v R.values hval.1

/-- Witness for C8: the concrete sibling derivations
`withValues(R, "a", 1)` and `withValues(R, "b", 2)` from an empty root. -/
theorem derivations_nonmutating_witness :
    readS (WithValues
        (WithValues ⟨[[]]⟩ ⟨0, "", ⟨0, 0, 0⟩⟩ [GoValue.str "a", GoValue.int 1]).1
        ⟨0, "", ⟨0, 0, 0⟩⟩ [GoValue.str "b", GoValue.int 2]).1
      (WithValues ⟨[[]]⟩ ⟨0, "", ⟨0, 0, 0⟩⟩ [GoValue.str "a", GoValue.int 1]).2.values
    = readS ⟨[[]]⟩ (⟨0, 0, 0⟩ : GoSlice) ++ [GoValue.str "a", GoValue.int 1] :=
  (derivations_nonmutating ⟨[[]]⟩ ⟨0, "", ⟨0, 0, 0⟩⟩
    [GoValue.str "a", GoValue.int 1] [GoValue.str "b", GoValue.int 2]
    "s" 0 (by decide)).2.1

/-- **C9**: `V` stores its argument as the verbosity without any
validation, negative values included; any verbosity below 2 behaves
exactly as the INFO tier in both `Enabled` and `Info`. -/
theorem v_unvalidated (h : Heap) (l : HLogger) (v glob : Int) (msg : String)
    (keysAndVals : List GoValue) :
    (V h l v).2.verbosity = v
    ∧ (v < 2 →
        Enabled (readLogger (V h l v).1 (V h l v).2) glob
          = (if InfoLevel < glob then false else true))
    ∧ (v < 2 → ∀ r,
        Info (readLogger (V h l v).1 (V h l v).2) glob msg keysAndVals
          = some r → r.level = InfoLevel) := by
  refine ⟨rfl, ?_, ?_⟩
  · intro hv
    simp [Enabled, readLogger, V, clone, debugVerbosity, hv]
  · intro hv r hr
    by_cases he : Enabled (readLogger (V h l v).1 (V h l v).2) glob = true
    · rw [Info_eq_some_shape _ _ _ _ he] at hr
      injection hr with hr
      subst hr
      simp [readLogger, V, clone, debugVerbosity, hv]
    · exact absurd hr (by simp [Info, he])

/-- Witness for C9: verbosity -5 is stored verbatim and gates like INFO
against a WARN global minimum. -/
theorem v_unvalidated_witness :
    Enabled (readLogger (V ⟨[[]]⟩ ⟨0, "", ⟨0, 0, 0⟩⟩ (-5)).1
        (V ⟨[[]]⟩ ⟨0, "", ⟨0, 0, 0⟩⟩ (-5)).2) WarnLevel
      = (if InfoLevel < WarnLevel then false else true) :=
  (v_unvalidated ⟨[[]]⟩ ⟨0, "", ⟨0, 0, 0⟩⟩ (-5) WarnLevel "m" []).2.1
    (by norm_num)

/-- **C10**: in both `Info` and `Error` the accumulated values and the
call-site pairs are encoded by two independent `add` invocations,
concatenated into the same event: a malformed side degrades to its
diagnostic fields while the other side is still encoded in full. -/
theorem encode_invocations_independent (l : Logger) (glob : Int)
    (err msg : String) (keysAndVals : List GoValue) :
    ((Error l glob err msg keysAndVals).fields
        = [Field.errF "error" err]
          ++ (if l.name ≠ "" then [Field.strF "name" l.name] else [])
          ++ addFields l.values ++ addFields keysAndVals)
    ∧ (Enabled l glob = true → ∀ r,
        Info l glob msg keysAndVals = some r →
        r.fields
          = [Field.intF "verbosity" l.verbosity]
            ++ (if l.name ≠ "" then [Field.strF "name" l.name] else [])
            ++ addFields l.values ++ addFields keysAndVals)
    ∧ (l.values.length % 2 ≠ 0 →
        addFields l.values
          = [Field.interfaceF "args" (GoValue.arr l.values),
             Field.errF "zerologr-err" oddArityMsg, Field.stackF])
    ∧ (keysAndVals.length % 2 ≠ 0 →
        addFields keysAndVals
          = [Field.interfaceF "args" (GoValue.arr keysAndVals),
             Field.errF "zerologr-err" oddArityMsg, Field.stackF]) := by
  refine ⟨Error_fields_shape l glob err msg keysAndVals, ?_, ?_, ?_⟩
  · intro hen r hr
    rw [Info_eq_some_shape _ _ _ _ hen] at hr
    injection hr with hr
    subst hr
    rfl
  · intro hodd
    simp [addFields, hodd]
  · intro hodd
    simp [addFields, hodd]

/-- Witness for C10: a malformed (odd) accumulated sequence still leaves
the call-site pair `("a", 1)` encoded in the same error event. -/
theorem encode_invocations_independent_witness :
    ((Error ⟨0, "", [GoValue.str "bad"]⟩ InfoLevel "boom" "m"
        [GoValue.str "a", GoValue.int 1]).fields
      = [Field.errF "error" "boom"]
        ++ (if ("" : String) ≠ "" then [Field.strF "name" ""] else [])
        ++ addFields [GoValue.str "bad"]
        ++ addFields [GoValue.str "a", GoValue.int 1])
    ∧ addFields [GoValue.str "bad"]
      = [Field.interfaceF "args" (GoValue.arr [GoValue.str "bad"]),
         Field.errF "zerologr-err" oddArityMsg, Field.stackF] :=
  ⟨(encode_invocations_independent ⟨0, "", [GoValue.str "bad"]⟩ InfoLevel
      "boom" "m" [GoValue.str "a", GoValue.int 1]).1,
   (encode_invocations_independent ⟨0, "", [GoValue.str "bad"]⟩ InfoLevel
      "boom" "m" [GoValue.str "a", GoValue.int 1]).2.2.1 (by decide)⟩

end Zerologr
